import Mathlib

/-!
Shallow embedding of the interactive filtering-and-navigation engine of
`retour` (Go sources: `ui.go` and the filter file defining `Filter`).
Strings are modelled as `List Char`; Go non-negative indices as `Nat`
(the Go code never lets them go negative); the terminal height, which can
be any int, as `Int`.
-/

namespace Retour

/-- `Record` from the db package: one stored command-execution entry.
`Timestamp` is modelled as an integer (its value never influences the
core's behaviour). -/
structure Record where
  id : Int
  command : List Char
  timestamp : Int
  workingDirectory : List Char
  exitStatus : Int
  arguments : List Char
  deriving DecidableEq

/-- The `Filter` struct: all records, the filtered subset, the filter text. -/
structure Filter where
  records : List Record
  filteredRecords : List Record
  filter : List Char
  deriving DecidableEq

/-- `NewFilter`: initially all records are shown and the filter text is empty. -/
def NewFilter (records : List Record) : Filter :=
  { records := records, filteredRecords := records, filter := [] }

/-- `strings.ToLower` on the model of strings (character-wise lowering). -/
def strToLower (s : List Char) : List Char := s.map Char.toLower

/-- Helper for `strContains`: does the string start with the pattern?
(first argument is the pattern). -/
def leadsWith : List Char → List Char → Bool
  | [], _ => true
  | _ :: _, [] => false
  | a :: as, b :: bs => a == b && leadsWith as bs

/-- `strings.Contains s sub`: `sub` occurs as a contiguous substring of `s`. -/
def strContains : List Char → List Char → Bool
  | [], sub => sub.isEmpty
  | c :: t, sub => leadsWith sub (c :: t) || strContains t sub

/-- The record predicate used by `Filter.UpdateFilter`: the lowered command
or the lowered arguments contain the (already lowered) filter text. -/
def matchesFilter (lowerFilter : List Char) (r : Record) : Bool :=
  strContains (strToLower r.command) lowerFilter ||
    strContains (strToLower r.arguments) lowerFilter

/-- `Filter.UpdateFilter`: store the new filter text; empty text short-circuits
to the full set, otherwise keep the records matching case-insensitively. -/
def UpdateFilter (f : Filter) (filterText : List Char) : Filter :=
  if filterText = [] then
    { f with filter := filterText, filteredRecords := f.records }
  else
    { f with filter := filterText,
             filteredRecords :=
               f.records.filter (matchesFilter (strToLower filterText)) }

/-- `Filter.InsertTextAtCursor`: no-op on empty text; otherwise clamp the
cursor into `[0, len]` and splice the text in, then re-filter. -/
def InsertTextAtCursor (f : Filter) (text : List Char) (cursorPos : Nat) : Filter :=
  if text.isEmpty then f
  else
    let p := min cursorPos f.filter.length
    UpdateFilter f (f.filter.take p ++ text ++ f.filter.drop p)

/-- `Filter.InsertCharAtCursor`: insert a one-character string. -/
def InsertCharAtCursor (f : Filter) (char : Char) (cursorPos : Nat) : Filter :=
  InsertTextAtCursor f [char] cursorPos

/-- `Filter.RemoveCharBeforeCursor`: remove the character before the cursor
when `0 < cursorPos ≤ len`, then re-filter; otherwise do nothing. -/
def RemoveCharBeforeCursor (f : Filter) (cursorPos : Nat) : Filter :=
  if 0 < cursorPos ∧ cursorPos ≤ f.filter.length then
    UpdateFilter f (f.filter.take (cursorPos - 1) ++ f.filter.drop cursorPos)
  else f

/-- `Filter.RemoveTextBeforeCursor`: clamp `cursorPos` to the length, then
remove `[newPos, cursorPos)` when `newPos < cursorPos`. -/
def RemoveTextBeforeCursor (f : Filter) (newPos cursorPos : Nat) : Filter :=
  let cp := min cursorPos f.filter.length
  if newPos < cp then
    UpdateFilter f (f.filter.take newPos ++ f.filter.drop cp)
  else f

/-- `Filter.RemoveTextAfterCursor`: truncate the filter text at the cursor
when `cursorPos ≤ len`. -/
def RemoveTextAfterCursor (f : Filter) (cursorPos : Nat) : Filter :=
  if cursorPos ≤ f.filter.length then
    UpdateFilter f (f.filter.take cursorPos)
  else f

/-- First loop of `findWordStart` in `ui.go`: while `pos > 0`,
`pos-1 < len text` and `text[pos-1] = ' '`, decrement `pos`. -/
def skipSpacesBack (t : List Char) : Nat → Nat
  | 0 => 0
  | p + 1 =>
    if h : p < t.length then
      if t.get ⟨p, h⟩ = ' ' then skipSpacesBack t p else p + 1
    else p + 1

/-- Second loop of `findWordStart` in `ui.go`: while `pos > 0`,
`pos-1 < len text` and `text[pos-1] ≠ ' '`, decrement `pos`. -/
def skipWordBack (t : List Char) : Nat → Nat
  | 0 => 0
  | p + 1 =>
    if h : p < t.length then
      if t.get ⟨p, h⟩ = ' ' then p + 1 else skipWordBack t p
    else p + 1

/-- `findWordStart`: skip the run of spaces before `pos`, then the run of
non-spaces before that. -/
def findWordStart (t : List Char) (pos : Nat) : Nat :=
  skipWordBack t (skipSpacesBack t pos)

/-- The UI `Model`: filter state, list cursor, text cursor, selection flag,
terminal height. -/
structure Model where
  filter : Filter
  cursor : Nat
  textCursor : Nat
  selected : Bool
  height : Int
  deriving DecidableEq

/-- `NewUI`: cursorless initial model (Go zero values for the fields the
constructor does not set). -/
def NewUI (f : Filter) : Model :=
  { filter := f, cursor := 0, textCursor := 0, selected := false, height := 0 }

/-- The discrete input events `Model.Update` distinguishes (the `tea.KeyMsg`
types it switches on, plus `tea.WindowSizeMsg`). -/
inductive Msg where
  | keyCtrlC
  | keyUp
  | keyCtrlP
  | keyDown
  | keyCtrlN
  | keyEnter
  | keyBackspace
  | keyLeft
  | keyRight
  | keyCtrlA
  | keyCtrlE
  | keyCtrlW
  | keyCtrlK
  | keySpace
  | keyRunes (runes : List Char)
  | windowSize (height : Int)
  deriving DecidableEq

/-- `Model.Update`. The `Bool` component models whether `tea.Quit` is
returned. Go compares `m.cursor < len(filtered)-1` over ints; with both
sides non-negative this is `m.cursor + 1 < len(filtered)`. -/
def Update (m : Model) (msg : Msg) : Model × Bool :=
  match msg with
  | .keyCtrlC => (m, true)
  | .keyUp | .keyCtrlP =>
    (if 0 < m.cursor then { m with cursor := m.cursor - 1 } else m, false)
  | .keyDown | .keyCtrlN =>
    (if m.cursor + 1 < m.filter.filteredRecords.length then
       { m with cursor := m.cursor + 1 }
     else m, false)
  | .keyEnter => ({ m with selected := true }, true)
  | .keyBackspace =>
    (if 0 < m.filter.filter.length ∧ 0 < m.textCursor then
       { m with filter := RemoveCharBeforeCursor m.filter m.textCursor,
                textCursor := m.textCursor - 1 }
     else m, false)
  | .keyLeft =>
    (if 0 < m.textCursor then { m with textCursor := m.textCursor - 1 } else m,
     false)
  | .keyRight =>
    (if m.textCursor < m.filter.filter.length then
       { m with textCursor := m.textCursor + 1 }
     else m, false)
  | .keyCtrlA => ({ m with textCursor := 0 }, false)
  | .keyCtrlE => ({ m with textCursor := m.filter.filter.length }, false)
  | .keyCtrlW =>
    (if 0 < m.textCursor then
       let newPos := findWordStart m.filter.filter m.textCursor
       { m with filter := RemoveTextBeforeCursor m.filter newPos m.textCursor,
                textCursor := newPos }
     else m, false)
  | .keyCtrlK =>
    (if m.textCursor < m.filter.filter.length then
       { m with filter := RemoveTextAfterCursor m.filter m.textCursor }
     else m, false)
  | .keySpace =>
    ({ m with filter := InsertCharAtCursor m.filter ' ' m.textCursor,
              textCursor := m.textCursor + 1 }, false)
  | .keyRunes rs =>
    ({ m with filter := InsertTextAtCursor m.filter rs m.textCursor,
              textCursor := m.textCursor + rs.length }, false)
  | .windowSize h => ({ m with height := h }, false)

/-- Deliver a list of events to the model, one at a time. -/
def run (m : Model) : List Msg → Model
  | [] => m
  | e :: es => run (Update m e).1 es

/-- Outcome of `Model.Selected`: no selection, a selected record, or an
out-of-range index access (a Go slice-index panic). -/
inductive SelOutcome where
  | noSel
  | sel (r : Record)
  | oob
  deriving DecidableEq

/-- `Model.Selected`: `(Record{}, false)` unless a selection was made and the
filtered set is non-empty; then it indexes `filteredRecords[m.cursor]`,
which panics when the cursor is out of range (`oob`). -/
def SelectedM (m : Model) : SelOutcome :=
  if !m.selected || m.filter.filteredRecords.isEmpty then .noSel
  else
    match m.filter.filteredRecords.get? m.cursor with
    | some r => .sel r
    | none => .oob

/-- The viewport windowing of `Model.View` (lines computing `start`/`end`),
stated over the available item height directly: `View` passes
`maxItems = m.height - 2` and shows a placeholder when that is `≤ 0`;
here `height` plays the role of that `maxItems`. `none` models the
degraded "no room to render" result. -/
def computeVisibleRange (totalItems cursor : Nat) (height : Int) :
    Option (Nat × Nat) :=
  if height ≤ 0 then none
  else
    let maxItems := height.toNat
    let start :=
      if maxItems < totalItems ∧ maxItems ≤ cursor then cursor - maxItems + 1
      else 0
    some (start, min (start + maxItems) totalItems)

/-- The three demo records of the UI tests: `ls -la`, `git status`,
`make build`. -/
def lsRec : Record :=
  { id := 1, command := "ls".toList, timestamp := 0,
    workingDirectory := "/home/user".toList, exitStatus := 0,
    arguments := "-la".toList }

def gitRec : Record :=
  { id := 2, command := "git".toList, timestamp := 0,
    workingDirectory := "/home/user/project".toList, exitStatus := 0,
    arguments := "status".toList }

def makeRec : Record :=
  { id := 3, command := "make".toList, timestamp := 0,
    workingDirectory := "/home/user/project".toList, exitStatus := 1,
    arguments := "build".toList }

def demoRecords : List Record := [lsRec, gitRec, makeRec]

theorem UpdateFilter_filter (f : Filter) (s : List Char) :
    (UpdateFilter f s).filter = s := by
  unfold UpdateFilter
  split <;> rfl

theorem UpdateFilter_records (f : Filter) (s : List Char) :
    (UpdateFilter f s).records = f.records := by
  unfold UpdateFilter
  split <;> rfl

theorem strContains_nil (s : List Char) : strContains s [] = true := by
  induction s with
  | nil => rfl
  | cons c t ih => simp [strContains, leadsWith, ih]

theorem matchesFilter_nil (r : Record) : matchesFilter [] r = true := by
  simp [matchesFilter, strContains_nil]

theorem UpdateFilter_filteredRecords (f : Filter) (s : List Char) :
    (UpdateFilter f s).filteredRecords =
      f.records.filter (matchesFilter (strToLower s)) := by
  unfold UpdateFilter
  split
  · next h =>
    subst h
    show f.records = f.records.filter (matchesFilter (strToLower []))
    exact (List.filter_eq_self.mpr (fun r _ => matchesFilter_nil r)).symm
  · rfl

theorem skipSpacesBack_le (t : List Char) (p : Nat) : skipSpacesBack t p ≤ p := by
  induction p with
  | zero => simp [skipSpacesBack]
  | succ q ih =>
    unfold skipSpacesBack
    split
    · split
      · exact le_trans ih (Nat.le_succ q)
      · exact le_refl _
    · exact le_refl _

theorem skipWordBack_le (t : List Char) (p : Nat) : skipWordBack t p ≤ p := by
  induction p with
  | zero => simp [skipWordBack]
  | succ q ih =>
    unfold skipWordBack
    split
    · split
      · exact le_refl _
      · exact le_trans ih (Nat.le_succ q)
    · exact le_refl _

theorem findWordStart_le (t : List Char) (pos : Nat) :
    findWordStart t pos ≤ pos :=
  le_trans (skipWordBack_le t _) (skipSpacesBack_le t pos)

/-- C3: for every record set and filter text, `UpdateFilter` yields exactly
the records whose lowered command or lowered arguments contain the lowered
filter text, as an order-preserving subsequence of the record set, and an
empty filter text yields exactly the full set. -/
theorem UpdateFilter_spec (f : Filter) (t : List Char) :
    (UpdateFilter f t).filteredRecords =
      f.records.filter (matchesFilter (strToLower t)) ∧
    List.Sublist (UpdateFilter f t).filteredRecords f.records ∧
    (∀ r : Record, r ∈ (UpdateFilter f t).filteredRecords ↔
      r ∈ f.records ∧ matchesFilter (strToLower t) r = true) ∧
    (UpdateFilter f []).filteredRecords = f.records := by
  refine ⟨UpdateFilter_filteredRecords f t, ?_, ?_, rfl⟩
  · rw [UpdateFilter_filteredRecords]
    exact List.filter_sublist f.records
  · intro r
    rw [UpdateFilter_filteredRecords]
    simp [List.mem_filter]

/-- C1 (falsified): from the initial model over the `ls`, `git`, `make`
records, the event sequence MoveDown, MoveDown, type `g` reaches a state
whose filtered set has length 1 while `listCursor` is 2: no event clamps
the list cursor back into range when the filter text changes. -/
theorem listCursor_invariant_fails :
    (run (NewUI (NewFilter demoRecords))
      [Msg.keyDown, Msg.keyDown, Msg.keyRunes ['g']]).filter.filteredRecords =
        [gitRec] ∧
    (run (NewUI (NewFilter demoRecords))
      [Msg.keyDown, Msg.keyDown, Msg.keyRunes ['g']]).cursor = 2 :=
  ⟨rfl, rfl⟩

/-- C2 (falsified): typing `g` with `listCursor = 1` re-filters but leaves
`listCursor` at 1 — `Model.Update` never resets the list cursor to 0 on a
filter-text change. -/
theorem listCursor_not_reset :
    (run (NewUI (NewFilter demoRecords))
      [Msg.keyDown, Msg.keyRunes ['g']]).filter.filteredRecords = [gitRec] ∧
    (run (NewUI (NewFilter demoRecords))
      [Msg.keyDown, Msg.keyRunes ['g']]).cursor = 1 :=
  ⟨rfl, rfl⟩

/-- C4 (falsified): the reachable event sequence MoveDown, MoveDown,
type `g`, Confirm makes `Model.Selected` index position 2 of a filtered
set of length 1 — a Go slice-index panic, modelled by `SelOutcome.oob`. -/
theorem selected_goes_out_of_bounds :
    SelectedM (run (NewUI (NewFilter demoRecords))
      [Msg.keyDown, Msg.keyDown, Msg.keyRunes ['g'], Msg.keyEnter]) =
      SelOutcome.oob :=
  rfl

/-- C5 counterexample: after Confirm the session is terminal
(`SelectedM` yields the `ls` record), yet a further MoveDown event still
changes the model: the list cursor moves from 0 to 1, so events are not
rejected in terminal states. -/
theorem terminal_event_changes_model :
    SelectedM (run (NewUI (NewFilter [lsRec, gitRec])) [Msg.keyEnter]) =
      SelOutcome.sel lsRec ∧
    (run (NewUI (NewFilter [lsRec, gitRec])) [Msg.keyEnter]).cursor = 0 ∧
    (Update (run (NewUI (NewFilter [lsRec, gitRec])) [Msg.keyEnter])
      Msg.keyDown).1.cursor = 1 :=
  ⟨rfl, rfl, rfl⟩

/-- C5 (amended): once the selection flag is set it is never cleared by any
further event — the terminal outcome is stable — although further events
are still processed and may change other fields. -/
theorem selected_stable (m : Model) (e : Msg) (h : m.selected = true) :
    ((Update m e).1).selected = true := by
  cases e <;> dsimp only [Update] <;> (try split) <;> simp [h]

/-- Witness for `selected_stable` at a concrete terminal model. -/
theorem selected_stable_witness :
    ((Update (run (NewUI (NewFilter [])) [Msg.keyEnter])
      Msg.keyDown).1).selected = true :=
  selected_stable (run (NewUI (NewFilter [])) [Msg.keyEnter]) Msg.keyDown rfl

/-- C7: Confirm always returns the quit signal; with an empty filtered set
no record becomes selected (the outcome stays the non-selected one), and
with the list cursor in range the outcome is the record at the list
cursor in the filtered set. -/
theorem confirm_spec (m : Model) :
    (Update m Msg.keyEnter).2 = true ∧
    (m.filter.filteredRecords = [] →
      SelectedM (Update m Msg.keyEnter).1 = SelOutcome.noSel) ∧
    (∀ h : m.cursor < m.filter.filteredRecords.length,
      SelectedM (Update m Msg.keyEnter).1 =
        SelOutcome.sel (m.filter.filteredRecords.get ⟨m.cursor, h⟩)) := by
  refine ⟨rfl, ?_, ?_⟩
  · intro he
    simp [Update, SelectedM, he]
  · intro h
    have hne : m.filter.filteredRecords.isEmpty = false := by
      rcases hl : m.filter.filteredRecords with _ | ⟨a, l⟩
      · rw [hl] at h
        simp at h
      · rfl
    simp [Update, SelectedM, hne, List.getElem?_eq_getElem h]

/-- Witness for `confirm_spec`: the empty-set branch on no records, and the
selecting branch on a single record. -/
theorem confirm_spec_witness :
    SelectedM (Update (NewUI (NewFilter [])) Msg.keyEnter).1 =
      SelOutcome.noSel ∧
    SelectedM (Update (NewUI (NewFilter [lsRec])) Msg.keyEnter).1 =
      SelOutcome.sel lsRec :=
  ⟨(confirm_spec (NewUI (NewFilter []))).2.1 rfl,
   (confirm_spec (NewUI (NewFilter [lsRec]))).2.2 (by decide)⟩

/-- C8 counterexample: inserting the two-character text `ab` into the empty
filter at position 0 and then removing one character before the resulting
cursor leaves `a`, not the original empty text; and inserting a single
character at the out-of-range position 5 (clamped to 0) followed by the
delete at cursor 6 also leaves `a`. -/
theorem insert_delete_not_inverse :
    (RemoveCharBeforeCursor
      (InsertTextAtCursor (NewFilter []) ['a', 'b'] 0) 2).filter = ['a'] ∧
    (RemoveCharBeforeCursor
      (InsertTextAtCursor (NewFilter []) ['a'] 5) 6).filter = ['a'] :=
  ⟨rfl, rfl⟩

/-- C8 (amended): for a single-character insertion at an in-range position,
inserting and then deleting the character before the resulting cursor
restores the original filter text, and the resulting cursor
`(pos + 1) - 1` is the original position. -/
theorem insert_delete_inverse (f : Filter) (c : Char) (pos : Nat)
    (h : pos ≤ f.filter.length) :
    (RemoveCharBeforeCursor (InsertTextAtCursor f [c] pos)
      (pos + 1)).filter = f.filter ∧ (pos + 1) - 1 = pos := by
  refine ⟨?_, rfl⟩
  have hmin : min pos f.filter.length = pos := Nat.min_eq_left h
  have hins : InsertTextAtCursor f [c] pos =
      UpdateFilter f (f.filter.take pos ++ [c] ++ f.filter.drop pos) := by
    unfold InsertTextAtCursor
    rw [if_neg (by simp)]
    dsimp only
    rw [hmin]
  rw [hins]
  have hlen : (f.filter.take pos ++ [c] ++ f.filter.drop pos).length =
      f.filter.length + 1 := by
    simp [List.length_append, List.length_take, List.length_drop]
    omega
  unfold RemoveCharBeforeCursor
  rw [UpdateFilter_filter, hlen, if_pos ⟨Nat.succ_pos pos, by omega⟩,
    UpdateFilter_filter, Nat.add_sub_cancel]
  have htake : (f.filter.take pos ++ [c] ++ f.filter.drop pos).take pos =
      f.filter.take pos := by
    rw [List.append_assoc]
    exact List.take_left' (by simp [List.length_take]; omega)
  have hdrop : (f.filter.take pos ++ [c] ++ f.filter.drop pos).drop (pos + 1) =
      f.filter.drop pos :=
    List.drop_left' (by simp [List.length_take]; omega)
  rw [htake, hdrop, List.take_append_drop]

/-- Witness for `insert_delete_inverse` at the empty filter, character `x`,
position 0. -/
theorem insert_delete_inverse_witness :
    (RemoveCharBeforeCursor (InsertTextAtCursor (NewFilter [lsRec]) ['x'] 0)
      1).filter = (NewFilter [lsRec]).filter ∧ (0 + 1) - 1 = 0 :=
  insert_delete_inverse (NewFilter [lsRec]) 'x' 0 (Nat.zero_le _)

/-- C6: the viewport windowing: degraded result for non-positive height;
`[0, totalItems)` when everything fits; `[0, maxItems)` when the cursor is
in the first window; otherwise the window pins the cursor to its last row;
plus the spec's concrete examples. -/
theorem computeVisibleRange_spec (total cursor : Nat) (height : Int) :
    (height ≤ 0 → computeVisibleRange total cursor height = none) ∧
    (0 < height → total ≤ height.toNat →
      computeVisibleRange total cursor height = some (0, total)) ∧
    (0 < height → height.toNat < total → cursor < height.toNat →
      computeVisibleRange total cursor height = some (0, height.toNat)) ∧
    (0 < height → height.toNat < total → height.toNat ≤ cursor →
      cursor < total →
      computeVisibleRange total cursor height =
        some (cursor - height.toNat + 1, cursor + 1)) ∧
    computeVisibleRange 10 3 5 = some (0, 5) ∧
    computeVisibleRange 10 7 5 = some (3, 8) ∧
    computeVisibleRange 3 0 5 = some (0, 3) ∧
    computeVisibleRange 10 2 0 = none := by
  refine ⟨?_, ?_, ?_, ?_, rfl, rfl, rfl, rfl⟩
  · intro hle
    simp only [computeVisibleRange, if_pos hle]
  · intro h1 h2
    simp only [computeVisibleRange, if_neg (show ¬ height ≤ 0 by omega)]
    rw [if_neg (show ¬ (height.toNat < total ∧ height.toNat ≤ cursor) by omega)]
    simp only [Option.some_inj, Prod.mk.injEq, Nat.zero_add]
    refine ⟨by trivial, by omega⟩
  · intro h1 h2 h3
    simp only [computeVisibleRange, if_neg (show ¬ height ≤ 0 by omega)]
    rw [if_neg (show ¬ (height.toNat < total ∧ height.toNat ≤ cursor) by omega)]
    simp only [Option.some_inj, Prod.mk.injEq, Nat.zero_add]
    refine ⟨by trivial, by omega⟩
  · intro h1 h2 h3 h4
    simp only [computeVisibleRange, if_neg (show ¬ height ≤ 0 by omega)]
    rw [if_pos (show height.toNat < total ∧ height.toNat ≤ cursor from ⟨h2, h3⟩)]
    simp only [Option.some_inj, Prod.mk.injEq]
    refine ⟨by trivial, by omega⟩

/-- Witness for `computeVisibleRange_spec`, discharging the hypotheses of
each conditional conjunct at concrete inputs. -/
theorem computeVisibleRange_spec_witness :
    computeVisibleRange 10 2 0 = none ∧
    computeVisibleRange 3 0 5 = some (0, 3) ∧
    computeVisibleRange 10 3 5 = some (0, 5) ∧
    computeVisibleRange 10 7 5 = some (3, 8) :=
  ⟨(computeVisibleRange_spec 10 2 0).1 (by decide),
   (computeVisibleRange_spec 3 0 5).2.1 (by decide) (by decide),
   (computeVisibleRange_spec 10 3 5).2.2.1 (by decide) (by decide) (by decide),
   (computeVisibleRange_spec 10 7 5).2.2.2.1 (by decide) (by decide)
     (by decide) (by decide)⟩

theorem skipSpacesBack_take (t : List Char) (p : Nat) (hp : p ≤ t.length) :
    (t.take (skipSpacesBack t p)).reverse =
      (t.take p).reverse.dropWhile (fun c => c == ' ') := by
  induction p with
  | zero => simp [skipSpacesBack]
  | succ q ih =>
    have hq : q < t.length := hp
    have hrev : (t.take (q + 1)).reverse =
        t.get ⟨q, hq⟩ :: (t.take q).reverse := by
      rw [List.take_succ, List.getElem?_eq_getElem hq]
      simp
    unfold skipSpacesBack
    rw [dif_pos hq]
    by_cases hc : t.get ⟨q, hq⟩ = ' '
    · rw [if_pos hc, hrev, List.dropWhile_cons, if_pos (by simpa using hc)]
      exact ih (le_of_lt hq)
    · rw [if_neg hc, hrev, List.dropWhile_cons, if_neg (by simpa using hc)]

theorem skipWordBack_take (t : List Char) (p : Nat) (hp : p ≤ t.length) :
    (t.take (skipWordBack t p)).reverse =
      (t.take p).reverse.dropWhile (fun c => !(c == ' ')) := by
  induction p with
  | zero => simp [skipWordBack]
  | succ q ih =>
    have hq : q < t.length := hp
    have hrev : (t.take (q + 1)).reverse =
        t.get ⟨q, hq⟩ :: (t.take q).reverse := by
      rw [List.take_succ, List.getElem?_eq_getElem hq]
      simp
    unfold skipWordBack
    rw [dif_pos hq]
    by_cases hc : t.get ⟨q, hq⟩ = ' '
    · rw [if_pos hc, hrev, List.dropWhile_cons, if_neg (by simpa using hc)]
    · rw [if_neg hc, hrev, List.dropWhile_cons, if_pos (by simpa using hc)]
      exact ih (le_of_lt hq)

theorem findWordStart_eq (t : List Char) (pos : Nat) (h : pos ≤ t.length) :
    findWordStart t pos =
      (((t.take pos).reverse.dropWhile (fun c => c == ' ')).dropWhile
        (fun c => !(c == ' '))).length := by
  have h1 := skipSpacesBack_take t pos h
  have hs : skipSpacesBack t pos ≤ t.length :=
    le_trans (skipSpacesBack_le t pos) h
  have h2 := skipWordBack_take t (skipSpacesBack t pos) hs
  unfold findWordStart
  rw [← h1, ← h2, List.length_reverse, List.length_take]
  exact (Nat.min_eq_left (le_trans (skipWordBack_le t _) hs)).symm

/-- C9: `findWordStart` never exceeds the input position (and, being a
natural number, is never negative); for in-range positions it returns
exactly the index obtained by dropping first the trailing run of spaces
and then the trailing run of non-spaces of the prefix before the cursor. -/
theorem findWordStart_spec (t : List Char) (pos : Nat) :
    findWordStart t pos ≤ pos ∧
    (pos ≤ t.length →
      findWordStart t pos =
        (((t.take pos).reverse.dropWhile (fun c => c == ' ')).dropWhile
          (fun c => !(c == ' '))).length) :=
  ⟨findWordStart_le t pos, fun h => findWordStart_eq t pos h⟩

/-- Witness for `findWordStart_spec` on the text `ab cd` at position 5. -/
theorem findWordStart_spec_witness :
    findWordStart "ab cd".toList 5 ≤ 5 ∧
    findWordStart "ab cd".toList 5 =
      ((("ab cd".toList.take 5).reverse.dropWhile (fun c => c == ' ')).dropWhile
        (fun c => !(c == ' '))).length :=
  ⟨(findWordStart_spec "ab cd".toList 5).1,
   (findWordStart_spec "ab cd".toList 5).2 (by decide)⟩

theorem Update_textCursor_le (m : Model) (e : Msg)
    (h : m.textCursor ≤ m.filter.filter.length) :
    ((Update m e).1).textCursor ≤ ((Update m e).1).filter.filter.length := by
  cases e with
  | keyCtrlC => exact h
  | keyUp => dsimp only [Update]; split <;> exact h
  | keyCtrlP => dsimp only [Update]; split <;> exact h
  | keyDown => dsimp only [Update]; split <;> exact h
  | keyCtrlN => dsimp only [Update]; split <;> exact h
  | keyEnter => exact h
  | keyBackspace =>
    dsimp only [Update]
    split
    · next hg =>
      dsimp only
      rw [show RemoveCharBeforeCursor m.filter m.textCursor =
          UpdateFilter m.filter
            (m.filter.filter.take (m.textCursor - 1) ++
              m.filter.filter.drop m.textCursor) by
        unfold RemoveCharBeforeCursor
        rw [if_pos ⟨hg.2, h⟩]]
      rw [UpdateFilter_filter]
      simp only [List.length_append, List.length_take, List.length_drop]
      omega
    · exact h
  | keyLeft =>
    dsimp only [Update]
    split
    · exact le_trans (Nat.sub_le _ _) h
    · exact h
  | keyRight =>
    dsimp only [Update]
    split
    · next hg => exact hg
    · exact h
  | keyCtrlA => exact Nat.zero_le _
  | keyCtrlE => exact le_refl _
  | keyCtrlW =>
    dsimp only [Update]
    split
    · next hg =>
      dsimp only
      have hnp : findWordStart m.filter.filter m.textCursor ≤ m.textCursor :=
        findWordStart_le _ _
      simp only [RemoveTextBeforeCursor, Nat.min_eq_left h]
      split
      · rw [UpdateFilter_filter]
        simp only [List.length_append, List.length_take, List.length_drop]
        omega
      · omega
    · exact h
  | keyCtrlK =>
    dsimp only [Update]
    split
    · next hg =>
      dsimp only
      simp only [RemoveTextAfterCursor, if_pos (le_of_lt hg),
        UpdateFilter_filter, List.length_take]
      omega
    · exact h
  | keySpace =>
    dsimp only [Update, InsertCharAtCursor]
    simp only [InsertTextAtCursor, List.isEmpty_cons, Bool.false_eq_true,
      if_false, UpdateFilter_filter, List.length_append, List.length_take,
      List.length_drop, List.length_cons, List.length_nil]
    omega
  | keyRunes rs =>
    dsimp only [Update]
    rcases rs with _ | ⟨a, l⟩
    · simp only [InsertTextAtCursor, List.isEmpty_nil, if_true,
        List.length_nil]
      simpa using h
    · simp only [InsertTextAtCursor, List.isEmpty_cons, Bool.false_eq_true,
        if_false, UpdateFilter_filter, List.length_append, List.length_take,
        List.length_drop, List.length_cons]
      omega
  | windowSize hh => exact h

theorem run_textCursor_le (msgs : List Msg) : ∀ m : Model,
    m.textCursor ≤ m.filter.filter.length →
    (run m msgs).textCursor ≤ (run m msgs).filter.filter.length := by
  induction msgs with
  | nil => exact fun m h => h
  | cons e es ih => exact fun m h => ih _ (Update_textCursor_le m e h)

/-- C10: in every model state reachable from the initial state by key
events, the text cursor stays within `[0, len(filterText)]` (the lower
bound holds by the `Nat` embedding; no handler lets the Go int go
negative). -/
theorem textCursor_invariant (rs : List Record) (msgs : List Msg) :
    (run (NewUI (NewFilter rs)) msgs).textCursor ≤
      (run (NewUI (NewFilter rs)) msgs).filter.filter.length :=
  run_textCursor_le msgs (NewUI (NewFilter rs)) (Nat.zero_le _)

end Retour
